import Mathlib

/-!
Verification of the reactive aggregation pipeline of the DataAnalysis
repository (src/BasicPackage/DS.py and src/BasicPackage/starter package.py).

The pandas dataframe is embedded as a list of records; numeric columns are
embedded as exact rationals except where a claim is specifically about
binary floating point, for which a separate binary64 rounding model is
given at the end of the definitions.
-/

namespace DataAnalysis

/-- Keep the first occurrence of every element, in order of first
occurrence.  This models both `DataFrame.drop_duplicates()` (keep first)
and the key order in which pandas hash-based grouping first meets each
key. -/
def uniqueInOrder {α : Type} [DecidableEq α] : List α → List α
  | [] => []
  | x :: xs => x :: (uniqueInOrder xs).filter (fun y => y != x)

/-- Calendar timestamp as parsed by `pd.to_datetime` from the input data. -/
structure Date where
  year : ℕ
  month : ℕ
  day : ℕ
  hour : ℕ
  minute : ℕ
deriving DecidableEq

/-- A cell value of the dataframe, used to compare the observable content
of a table before and after a pipeline stage. -/
inductive Value where
  | str (s : String)
  | int (n : ℤ)
  | rat (q : ℚ)
  | date (d : Date)
deriving DecidableEq

/-- One raw row as read by `pd.read_csv` (DS.py line 14, starter package
line 20): any of the five columns used by the pipeline may be missing
(NaN). -/
structure CsvRow where
  invoiceNo : Option String
  description : Option String
  quantity : Option ℤ
  unitPrice : Option ℚ
  invoiceDate : Option String
deriving DecidableEq

/-- A row that survived cleaning: all five columns present, `InvoiceDate`
still the raw string. -/
structure RawRecord where
  invoiceNo : String
  description : String
  quantity : ℤ
  unitPrice : ℚ
  invoiceDate : String
deriving DecidableEq

/-- A row after feature derivation: `InvoiceDate` overwritten with its
parsed value, `TotalPrice` and `Month` attached (DS.py lines 19-21,
starter package lines 45-48). -/
structure Record where
  invoiceNo : String
  description : String
  quantity : ℤ
  unitPrice : ℚ
  invoiceDate : Date
  totalPrice : ℚ
  month : String
deriving DecidableEq

/-- The one hard failure of the derivation stage: `pd.to_datetime`
raising on an unparseable date. -/
inductive DeriveError where
  | invalidTimestamp
deriving DecidableEq

/-- The triple returned by `calculate_kpis` (DS.py lines 30-35).
`averageValue` is `none` when pandas would produce NaN (mean of an empty
column). -/
structure MetricsSnapshot where
  totalRevenue : ℚ
  averageValue : Option ℚ
  orderCount : ℕ
deriving DecidableEq

/-- The two chart-ready aggregates computed in `update_dashboard`
(DS.py lines 117-123 and 141-146). -/
structure AggregateSet where
  topItems : List (String × ℕ)
  periodTotals : List (String × ℚ)
deriving DecidableEq

/-! ## Timestamp parsing and the month key -/

/-- Split a character list at every occurrence of `c`. -/
def splitOnChar (c : Char) : List Char → List (List Char)
  | [] => [[]]
  | x :: xs =>
    match splitOnChar c xs with
    | [] => [[]]
    | g :: gs => if x = c then [] :: g :: gs else (x :: g) :: gs

/-- Read a nonempty all-digit character list as a number. -/
def digitsVal (l : List Char) : Option ℕ :=
  if l.isEmpty then none
  else
    l.foldl
      (fun acc ch =>
        match acc with
        | none => none
        | some n => if ch.isDigit then some (10 * n + (ch.toNat - 48)) else none)
      (some 0)

/-- Model of `pd.to_datetime` on one cell for the dataset's
`M/D/YYYY H:MM` timestamp format: `none` when pandas would raise. -/
def parseDate (s : String) : Option Date :=
  match splitOnChar ' ' s.toList with
  | [datePart, timePart] =>
    match splitOnChar '/' datePart, splitOnChar ':' timePart with
    | [ms, ds, ys], [hs, mins] =>
      match digitsVal ms, digitsVal ds, digitsVal ys, digitsVal hs, digitsVal mins with
      | some m, some d, some y, some h, some mi =>
        if 1 ≤ m ∧ m ≤ 12 ∧ 1 ≤ d ∧ d ≤ 31 ∧ h < 24 ∧ mi < 60 then
          some ⟨y, m, d, h, mi⟩
        else none
      | _, _, _, _, _ => none
    | _, _ => none
  | _ => none

/-- Decimal digit character for `n % 10`. -/
def digitChar (n : ℕ) : Char := Char.ofNat (48 + n % 10)

/-- Decimal digits of `n` (fuel-bounded, 10 digits are enough for the
values in the table). -/
def natDigitsAux : ℕ → ℕ → List Char
  | 0, _ => []
  | fuel + 1, n => if n = 0 then [] else natDigitsAux fuel (n / 10) ++ [digitChar n]

/-- Decimal rendering of a natural number. -/
def natToString (n : ℕ) : String :=
  if n = 0 then "0" else ⟨natDigitsAux 10 n⟩

/-- Zero-pad to two digits (month part of a period key). -/
def pad2 (n : ℕ) : String :=
  if n < 10 then "0" ++ natToString n else natToString n

/-- Zero-pad to four digits (year part of a period key). -/
def pad4 (n : ℕ) : String :=
  if n < 10 then "000" ++ natToString n
  else if n < 100 then "00" ++ natToString n
  else if n < 1000 then "0" ++ natToString n
  else natToString n

/-- Model of `dt.to_period("M").astype(str)` (DS.py line 21): the
zero-padded `YYYY-MM` month key. -/
def monthKey (d : Date) : String := pad4 d.year ++ "-" ++ pad2 d.month

/-! ## Loader -/

/-- A row with no missing cell among the five columns the pipeline uses
(`dropna` keeps exactly these rows). -/
def rowComplete (r : CsvRow) : Bool :=
  r.invoiceNo.isSome && r.description.isSome && r.quantity.isSome &&
    r.unitPrice.isSome && r.invoiceDate.isSome

/-- `clean_data` (starter package lines 28-37) and the cleaning half of
`load_and_prepare_data` (DS.py lines 16-17): `drop_duplicates()` keeping
first occurrences, then `dropna()`. -/
def clean_data (rows : List CsvRow) : List CsvRow :=
  (uniqueInOrder rows).filter rowComplete

/-- Extract the five cells of a complete row. -/
def toRawRecord (r : CsvRow) : Option RawRecord :=
  match r.invoiceNo, r.description, r.quantity, r.unitPrice, r.invoiceDate with
  | some a, some b, some c, some d, some e => some ⟨a, b, c, d, e⟩
  | _, _, _, _, _ => none

/-! ## Feature deriver -/

/-- One derived record: `InvoiceDate` replaced by its parsed value,
`TotalPrice = Quantity * UnitPrice` and `Month` attached. -/
def deriveRecord (r : RawRecord) (d : Date) : Record :=
  { invoiceNo := r.invoiceNo
    description := r.description
    quantity := r.quantity
    unitPrice := r.unitPrice
    invoiceDate := d
    totalPrice := (r.quantity : ℚ) * r.unitPrice
    month := monthKey d }

/-- The column operation `pd.to_datetime(df["InvoiceDate"])`: parse every
cell, failing as a whole if any cell fails. -/
def parseColumn : List RawRecord → Option (List (RawRecord × Date))
  | [] => some []
  | r :: rs =>
    match parseDate r.invoiceDate, parseColumn rs with
    | some d, some rest => some ((r, d) :: rest)
    | _, _ => none

/-- `prepare_features` (starter package lines 44-49) and the derivation
half of `load_and_prepare_data` (DS.py lines 19-21): parse the timestamp
column (raising `InvalidTimestamp` when any cell is unparseable), then
attach `TotalPrice` and `Month`. -/
def prepare_features (t : List RawRecord) : Except DeriveError (List Record) :=
  match parseColumn t with
  | none => .error .invalidTimestamp
  | some rds => .ok (rds.map (fun rd => deriveRecord rd.1 rd.2))

/-- In Python, `prepare_features` assigns columns on its argument
(`df["InvoiceDate"] = ...`) and returns that same object, so after the
call the caller's binding for the input table denotes the derived
table. -/
def prepare_features_argAfterCall (t : List RawRecord) :
    Except DeriveError (List Record) :=
  prepare_features t

/-- `load_and_prepare_data` (DS.py lines 13-23): read, deduplicate, drop
incomplete rows, derive features. -/
def load_and_prepare_data (rows : List CsvRow) : Except DeriveError (List Record) :=
  prepare_features ((clean_data rows).filterMap toRawRecord)

/-- The original (pre-derivation) cells of a raw record. -/
def RawRecord.originalCells (r : RawRecord) : List Value :=
  [.str r.invoiceNo, .str r.description, .int r.quantity, .rat r.unitPrice,
    .str r.invoiceDate]

/-- The cells of a derived record at the five original columns. -/
def Record.originalCells (r : Record) : List Value :=
  [.str r.invoiceNo, .str r.description, .int r.quantity, .rat r.unitPrice,
    .date r.invoiceDate]

/-! ## Metric engine -/

/-- `calculate_kpis` (DS.py lines 30-35): sum of `TotalPrice`, pandas
mean of `TotalPrice` (NaN, modelled as `none`, on an empty subset), and
`nunique` of `InvoiceNo`. -/
def calculate_kpis (t : List Record) : MetricsSnapshot :=
  { totalRevenue := (t.map (fun r => r.totalPrice)).sum
    averageValue :=
      if t.isEmpty then none
      else some ((t.map (fun r => r.totalPrice)).sum / (t.length : ℚ))
    orderCount := (uniqueInOrder (t.map (fun r => r.invoiceNo))).length }

/-! ## Aggregation engine -/

/-- Ascending-by-count order used below. -/
def countLE (a b : String × ℕ) : Prop := a.2 ≤ b.2

instance : DecidableRel countLE := fun a b => inferInstanceAs (Decidable (a.2 ≤ b.2))

/-- The descriptions column of a subset. -/
def descs (t : List Record) : List String := t.map (fun r => r.description)

/-- `filtered_df["Description"].value_counts().head(10)` (DS.py lines
117-123; likewise starter package lines 56-64): count each distinct
description (keys in first-encounter order), sort by count; pandas
`sort_values(ascending=False)` reverses the stable ascending argsort
(`nargsort` reverses the indexer when not ascending), so the descending
result carries ties in reverse key order; then truncate to 10. -/
def top_products (t : List Record) : List (String × ℕ) :=
  let ds := descs t
  let counted := (uniqueInOrder ds).map (fun k => (k, ds.count k))
  ((counted.insertionSort countLE).reverse).take 10

/-- The topItems sequence as the specification words it: group and count,
then a stable descending sort whose ties keep first-encounter order, then
truncate to 10.  Stated for comparison against `top_products`. -/
def top_products_spec (t : List Record) : List (String × ℕ) :=
  let ds := descs t
  let counted := (uniqueInOrder ds).map (fun k => (k, ds.count k))
  (counted.insertionSort (fun a b => b.2 ≤ a.2)).take 10

/-- `filtered_df.groupby("Month")["TotalPrice"].sum()` (DS.py lines
141-146; likewise starter package lines 87-103): one entry per distinct
month, keys sorted ascending (`groupby` sorts its keys), each entry the
sum of `TotalPrice` over that month's rows. -/
def monthly_sales (t : List Record) : List (String × ℚ) :=
  let keys := (uniqueInOrder (t.map (fun r => r.month))).insertionSort (· ≤ ·)
  keys.map (fun m =>
    (m, ((t.filter (fun r => r.month == m)).map (fun r => r.totalPrice)).sum))

/-- The pair of chart aggregates computed in `update_dashboard`. -/
def computeAggregates (t : List Record) : AggregateSet :=
  { topItems := top_products t
    periodTotals := monthly_sales t }

/-! ## Filter state machine -/

/-- `filtered_df = df[df["Month"].isin(selected_months)]` (DS.py line
103). -/
def filterByMonths (df : List Record) (sel : List String) : List Record :=
  df.filter (fun r => sel.contains r.month)

/-- `update_dashboard` (DS.py lines 103-146): filter the table to the
selected months, then compute the metrics and both aggregates from the
same filtered subset. -/
def update_dashboard (df : List Record) (sel : List String) :
    MetricsSnapshot × AggregateSet :=
  let f := filterByMonths df sel
  (calculate_kpis f, computeAggregates f)

/-! ## Binary64 model of the `TotalPrice` column

pandas stores `Quantity` and `UnitPrice` as IEEE-754 binary64 and computes
`df["Quantity"] * df["UnitPrice"]` with one binary64 rounding.  The model
below rounds an exact rational to the nearest 53-bit-significand dyadic
(round half to even); exponent range limits are irrelevant for the values
in the table and are not modelled. -/

/-- Whether the positive fraction `n / d` is below `2 ^ e`, by integer
arithmetic. -/
def ltPow2 (n d : ℕ) (e : ℤ) : Bool :=
  if 0 ≤ e then decide (n < d * 2 ^ e.toNat) else decide (n * 2 ^ (-e).toNat < d)

/-- Binary exponent search: from the candidate `e`, walk to the `e` with
`2 ^ (e - 1) ≤ n / d < 2 ^ e` (fuel-bounded; `n / d` must be positive;
128 steps cover all magnitudes arising from the data). -/
def findE : ℕ → ℕ → ℕ → ℤ → ℤ
  | 0, _, _, e => e
  | fuel + 1, n, d, e =>
    if ltPow2 n d e then
      if ltPow2 n d (e - 1) then findE fuel n d (e - 1) else e
    else findE fuel n d (e + 1)

/-- Round the fraction `numer / denom` (with `denom` positive) to the
nearest integer, halves to even. -/
def rneNat (numer denom : ℕ) : ℕ :=
  let q := numer / denom
  let r := numer % denom
  if 2 * r < denom then q
  else if denom < 2 * r then q + 1
  else if q % 2 = 0 then q else q + 1

/-- Round the positive fraction `n / d` to the nearest 53-bit-significand
dyadic. -/
def flAux (n d : ℕ) : ℚ :=
  let e := findE 128 n d 0
  let s := (53 : ℤ) - e
  let m := if 0 ≤ s then rneNat (n * 2 ^ s.toNat) d else rneNat n (d * 2 ^ (-s).toNat)
  if 0 ≤ e - 53 then mkRat ((m : ℤ) * 2 ^ (e - 53).toNat) 1
  else mkRat ((m : ℤ)) (2 ^ (53 - e).toNat)

/-- Round an exact rational to the nearest binary64 value. -/
def fl (x : ℚ) : ℚ :=
  if x.num = 0 then 0
  else if 0 ≤ x.num then flAux x.num.toNat x.den
  else
    let v := flAux (-x.num).toNat x.den
    mkRat (-v.num) v.den

/-- The binary64 semantics of the column assignment
`df["TotalPrice"] = df["Quantity"] * df["UnitPrice"]` (DS.py line 20,
starter package line 46): the stored price is the binary64 nearest to the
decimal in the file, and its exact product with the (integer-valued)
quantity, formed here on numerator and denominator, is rounded once more
to binary64. -/
def totalPrice64 (qty : ℤ) (price : ℚ) : ℚ :=
  let p := fl price
  fl (mkRat (qty * p.num) p.den)

/-- One binary64 addition: the exact rational sum, formed on numerators
and denominators, rounded to binary64. -/
def fladd (a b : ℚ) : ℚ :=
  fl (mkRat (a.num * (b.den : ℤ) + b.num * (a.den : ℤ)) (a.den * b.den))

/-- Left-to-right binary64 summation starting from zero, as numpy sums a
float64 column of fewer than eight values (its pairwise summation is a
plain sequential loop below that size). -/
def sumF (l : List ℚ) : ℚ := l.foldl fladd 0

/-- Binary64 semantics of `df["TotalPrice"].sum()` in `calculate_kpis`
(DS.py line 31) for small tables. -/
def totalRevenue64 (t : List Record) : ℚ := sumF (t.map (fun r => r.totalPrice))

/-- Binary64 semantics of `groupby("Month")["TotalPrice"].sum()` (DS.py
lines 141-146): per group, the accumulator adds the group's values in
row order, rounding after each addition. -/
def periodTotals64 (t : List Record) : List (String × ℚ) :=
  let keys := (uniqueInOrder (t.map (fun r => r.month))).insertionSort (· ≤ ·)
  keys.map (fun m =>
    (m, sumF ((t.filter (fun r => r.month == m)).map (fun r => r.totalPrice))))

/-! ## Concrete tables used by counterexamples and witnesses -/

/-- Two records with distinct descriptions, each occurring once, in one
month. -/
def exTieA : Record :=
  ⟨"536365", "apple", 3, 2, ⟨2010, 12, 1, 8, 26⟩, 6, "2010-12"⟩

/-- Second tied record; its description is encountered after `apple`. -/
def exTieB : Record :=
  ⟨"536366", "banana", 1, 5, ⟨2010, 12, 1, 9, 0⟩, 5, "2010-12"⟩

/-- A two-record subset whose two descriptions are tied at count one. -/
def exTie : List Record := [exTieA, exTieB]

/-- A one-row raw table for observing the derivation stage. -/
def exRaw : List RawRecord :=
  [⟨"536365", "WHITE HANGING HEART T-LIGHT HOLDER", 6, mkRat 255 100,
    "12/1/2010 8:26"⟩]

/-- The derived table produced from `exRaw`. -/
def exRawDerived : List Record :=
  [⟨"536365", "WHITE HANGING HEART T-LIGHT HOLDER", 6, mkRat 255 100,
    ⟨2010, 12, 1, 8, 26⟩, mkRat 153 10, "2010-12"⟩]

/-- A one-record subset containing a return (negative quantity). -/
def exNegRecord : Record :=
  ⟨"C536379", "returned item", -2, 3, ⟨2010, 12, 5, 10, 0⟩, -6, "2010-12"⟩

/-- Three rows, each one unit at the stored binary64 price of one tenth
(3602879701896397 / 2 ^ 55), split across two months with the first and
third rows in the earlier month; the `TotalPrice` cells hold exactly what
the binary64 column assignment produces. -/
def exFloat : List Record :=
  [⟨"F1", "item a", 1, mkRat 1 10, ⟨2010, 12, 1, 8, 0⟩,
      mkRat 3602879701896397 36028797018963968, "2010-12"⟩,
    ⟨"F2", "item b", 1, mkRat 1 10, ⟨2011, 1, 2, 8, 0⟩,
      mkRat 3602879701896397 36028797018963968, "2011-01"⟩,
    ⟨"F3", "item c", 1, mkRat 1 10, ⟨2010, 12, 3, 8, 0⟩,
      mkRat 3602879701896397 36028797018963968, "2010-12"⟩]

end DataAnalysis

namespace DataAnalysis

/-! ## Helper lemmas -/

theorem mem_uniqueInOrder {α : Type} [DecidableEq α] {a : α} :
    ∀ {l : List α}, a ∈ uniqueInOrder l ↔ a ∈ l := by
  intro l
  induction l with
  | nil => simp [uniqueInOrder]
  | cons x xs ih =>
    by_cases h : a = x
    · simp [uniqueInOrder, h]
    · simp [uniqueInOrder, List.mem_filter, bne_iff_ne, h, ih]

theorem nodup_uniqueInOrder {α : Type} [DecidableEq α] :
    ∀ {l : List α}, (uniqueInOrder l).Nodup := by
  intro l
  induction l with
  | nil => simp [uniqueInOrder]
  | cons x xs ih =>
    refine List.Nodup.cons ?_ (ih.filter _)
    intro hmem
    have := (List.mem_filter.mp hmem).2
    simp at this

theorem uniqueInOrder_sublist {α : Type} [DecidableEq α] :
    ∀ {l : List α}, List.Sublist (uniqueInOrder l) l := by
  intro l
  induction l with
  | nil => simp [uniqueInOrder]
  | cons x xs ih =>
    exact List.Sublist.cons₂ x ((List.filter_sublist _).trans ih)

/-! ## Claim C2 -/

/-- Claim C2: for every subset, the `orderCount` field of the metrics is
the number of distinct order identifiers occurring in the subset, not the
number of rows. -/
theorem c2_orderCount_distinct (t : List Record) :
    (calculate_kpis t).orderCount = (t.map (fun r => r.invoiceNo)).toFinset.card := by
  show (uniqueInOrder (t.map (fun r => r.invoiceNo))).length = _
  have hnd : (uniqueInOrder (t.map (fun r => r.invoiceNo))).Nodup := nodup_uniqueInOrder
  have hset : (uniqueInOrder (t.map (fun r => r.invoiceNo))).toFinset =
      (t.map (fun r => r.invoiceNo)).toFinset := by
    apply Finset.ext
    intro a
    simp [List.mem_toFinset, mem_uniqueInOrder]
  rw [← hset, List.card_toFinset, List.Nodup.dedup hnd]

/-! ## Claim C1 -/

theorem filterByMonths_nil (df : List Record) : filterByMonths df [] = [] := by
  induction df with
  | nil => rfl
  | cons r rs ih => simp [filterByMonths, List.filter]

/-- Claim C1 (amended): on the empty subset the metrics are total revenue
0, order count 0, and an undefined (NaN) average, while both aggregates
are empty; an empty filter selection produces exactly these outputs, and
no operation fails. -/
theorem c1_empty_subset_amended :
    (∀ df : List Record, update_dashboard df [] =
      ({ totalRevenue := 0, averageValue := none, orderCount := 0 },
        { topItems := [], periodTotals := [] })) ∧
    calculate_kpis [] = { totalRevenue := 0, averageValue := none, orderCount := 0 } ∧
    computeAggregates [] = { topItems := [], periodTotals := [] } := by
  refine ⟨fun df => ?_, rfl, rfl⟩
  show (calculate_kpis (filterByMonths df []), computeAggregates (filterByMonths df [])) = _
  rw [filterByMonths_nil]
  rfl

/-- Claim C1 is false as stated: on the empty subset the average is
pandas' mean of an empty column, NaN, not the number 0. -/
theorem c1_empty_mean_counterexample :
    (calculate_kpis []).averageValue ≠ some 0 := by
  decide

/-! ## Claim C8 -/

/-- Claim C8: after cleaning, no two surviving rows coincide on all
fields, every surviving row has all five fields present, and the result
is a sublist of the input (offending rows are dropped whole, never
imputed). -/
theorem c8_loader_postcondition (rows : List CsvRow) :
    (clean_data rows).Nodup ∧
    (∀ r ∈ clean_data rows, rowComplete r = true) ∧
    List.Sublist (clean_data rows) rows := by
  refine ⟨List.Nodup.filter _ nodup_uniqueInOrder, ?_, ?_⟩
  · intro r hr
    exact (List.mem_filter.mp hr).2
  · exact (List.filter_sublist _).trans uniqueInOrder_sublist

/-! ## Claim C9 -/

theorem parseColumn_eq_none_iff :
    ∀ {t : List RawRecord},
      parseColumn t = none ↔ ∃ r ∈ t, parseDate r.invoiceDate = none := by
  intro t
  induction t with
  | nil => simp [parseColumn]
  | cons r rs ih =>
    simp only [parseColumn]
    cases h1 : parseDate r.invoiceDate with
    | none =>
      constructor
      · intro _
        exact ⟨r, List.mem_cons_self r rs, h1⟩
      · intro _
        rfl
    | some d =>
      cases h2 : parseColumn rs with
      | none =>
        constructor
        · intro _
          obtain ⟨r', hr', hp⟩ := ih.mp h2
          exact ⟨r', List.mem_cons_of_mem r hr', hp⟩
        · intro _
          rfl
      | some ps =>
        constructor
        · intro hfalse
          exact absurd hfalse (by simp)
        · rintro ⟨r', hr', hp⟩
          rcases List.mem_cons.mp hr' with hEq | hmem
          · rw [hEq] at hp
            rw [hp] at h1
            exact absurd h1 (by simp)
          · exact absurd (ih.mpr ⟨r', hmem, hp⟩) (by simp [h2])

/-- Claim C9: feature derivation raises `InvalidTimestamp` exactly when
some record's timestamp fails to parse, and succeeds (producing a table)
exactly when every record's timestamp parses. -/
theorem c9_invalid_timestamp_iff (t : List RawRecord) :
    (prepare_features t = .error .invalidTimestamp ↔
      ∃ r ∈ t, parseDate r.invoiceDate = none) ∧
    ((∃ d, prepare_features t = .ok d) ↔
      ∀ r ∈ t, parseDate r.invoiceDate ≠ none) := by
  cases h : parseColumn t with
  | none =>
    have hex := parseColumn_eq_none_iff.mp h
    have hrun : prepare_features t = .error .invalidTimestamp := by
      simp [prepare_features, h]
    constructor
    · exact iff_of_true hrun hex
    · constructor
      · rintro ⟨d, hd⟩
        rw [hrun] at hd
        exact absurd hd (by simp)
      · intro hall
        obtain ⟨r, hr, hp⟩ := hex
        exact absurd hp (hall r hr)
  | some ps =>
    have hnone : ¬∃ r ∈ t, parseDate r.invoiceDate = none := by
      intro hex
      have := parseColumn_eq_none_iff.mpr hex
      rw [h] at this
      exact absurd this (by simp)
    have hrun : prepare_features t = .ok (ps.map (fun rd => deriveRecord rd.1 rd.2)) := by
      simp [prepare_features, h]
    constructor
    · refine iff_of_false ?_ hnone
      intro hfalse
      rw [hrun] at hfalse
      exact absurd hfalse (by simp)
    · refine iff_of_true ⟨_, hrun⟩ ?_
      intro r hr hp
      exact hnone ⟨r, hr, hp⟩

/-! ## Claims C4 and C5 -/

theorem sum_fibers {R K : Type} [DecidableEq K] (key : R → K) (f : R → ℚ) :
    ∀ (ks : List K) (t : List R), ks.Nodup → (∀ r ∈ t, key r ∈ ks) →
      (ks.map (fun k => ((t.filter (fun r => key r == k)).map f).sum)).sum
        = (t.map f).sum := by
  intro ks
  induction ks with
  | nil =>
    intro t _ hcov
    cases t with
    | nil => simp
    | cons r rs => exact absurd (hcov r (List.mem_cons_self r rs)) (by simp)
  | cons k ks ih =>
    intro t hnd hcov
    have hhead := (List.nodup_cons.mp hnd).1
    have hnd' := (List.nodup_cons.mp hnd).2
    have hfib : ∀ k' ∈ ks,
        t.filter (fun r => key r == k') =
          (t.filter (fun r => !(key r == k))).filter (fun r => key r == k') := by
      intro k' hk'
      have hne : k' ≠ k := fun hEq => hhead (hEq ▸ hk')
      rw [List.filter_filter]
      apply List.filter_congr
      intro r _
      by_cases hkr : key r = k'
      · have h2 : key r ≠ k := by
          rw [hkr]
          exact hne
        simp [hkr, h2, hne]
      · simp [hkr]
    have hcov' : ∀ r ∈ t.filter (fun r => !(key r == k)), key r ∈ ks := by
      intro r hr
      obtain ⟨hrt, hrk⟩ := List.mem_filter.mp hr
      have := hcov r hrt
      rcases List.mem_cons.mp this with hEq | hmem
      · rw [hEq] at hrk
        simp at hrk
      · exact hmem
    have hrest :
        (ks.map (fun k' => ((t.filter (fun r => key r == k')).map f).sum)).sum
          = ((t.filter (fun r => !(key r == k))).map f).sum := by
      rw [List.map_congr_left (fun k' hk' => by rw [hfib k' hk'])]
      exact ih (t.filter (fun r => !(key r == k))) hnd' hcov'
    have hperm :
        ((t.filter (fun r => key r == k)).map f ++
          (t.filter (fun r => !(key r == k))).map f).sum = (t.map f).sum := by
      rw [← List.map_append]
      exact List.Perm.sum_eq ((List.filter_append_perm _ t).map f)
    calc ((k :: ks).map (fun k' => ((t.filter (fun r => key r == k')).map f).sum)).sum
        = ((t.filter (fun r => key r == k)).map f).sum
            + (ks.map (fun k' => ((t.filter (fun r => key r == k')).map f).sum)).sum := by
          simp
      _ = ((t.filter (fun r => key r == k)).map f).sum
            + ((t.filter (fun r => !(key r == k))).map f).sum := by rw [hrest]
      _ = (t.map f).sum := by
          rw [← hperm, List.sum_append]

theorem monthKeys_nodup (t : List Record) :
    ((uniqueInOrder (t.map (fun r => r.month))).insertionSort (· ≤ ·)).Nodup :=
  (List.perm_insertionSort _ _).symm.nodup nodup_uniqueInOrder

theorem mem_monthKeys {t : List Record} {m : String} :
    m ∈ (uniqueInOrder (t.map (fun r => r.month))).insertionSort (· ≤ ·) ↔
      ∃ r ∈ t, r.month = m := by
  rw [(List.perm_insertionSort _ _).mem_iff, mem_uniqueInOrder]
  simp [List.mem_map]

/-- Claim C4: the per-period totals have pairwise-distinct keys, exactly
the periods present in the subset; each entry is the sum of the line
totals of its period's records; and entries are sorted strictly ascending
by period key. -/
theorem c4_periodTotals_sorted_grouped (t : List Record) :
    (((monthly_sales t).map Prod.fst).Nodup ∧
      ∀ m, m ∈ (monthly_sales t).map Prod.fst ↔ ∃ r ∈ t, r.month = m) ∧
    (∀ p ∈ monthly_sales t,
      p.2 = ((t.filter (fun r => r.month == p.1)).map (fun r => r.totalPrice)).sum) ∧
    List.Pairwise (fun a b : String × ℚ => a.1 < b.1) (monthly_sales t) := by
  have hfst : (monthly_sales t).map Prod.fst =
      (uniqueInOrder (t.map (fun r => r.month))).insertionSort (· ≤ ·) := by
    show ((((uniqueInOrder (t.map (fun r => r.month))).insertionSort (· ≤ ·)).map
      (fun m => (m, ((t.filter (fun r => r.month == m)).map (fun r => r.totalPrice)).sum))).map
        Prod.fst) = _
    rw [List.map_map]
    exact List.map_id' _
  refine ⟨⟨?_, ?_⟩, ?_, ?_⟩
  · rw [hfst]
    exact monthKeys_nodup t
  · intro m
    rw [hfst]
    exact mem_monthKeys
  · intro p hp
    obtain ⟨m, _, hm⟩ := List.mem_map.mp hp
    rw [← hm]
  · have hsorted : List.Pairwise (fun a b : String => a ≤ b)
        ((uniqueInOrder (t.map (fun r => r.month))).insertionSort (· ≤ ·)) :=
      List.sorted_insertionSort _ _
    have hlt : List.Pairwise (fun a b : String => a < b)
        ((uniqueInOrder (t.map (fun r => r.month))).insertionSort (· ≤ ·)) := by
      have hne := monthKeys_nodup t
      exact (hsorted.and hne).imp (fun h => lt_of_le_of_ne h.1 h.2)
    show List.Pairwise (fun a b : String × ℚ => a.1 < b.1)
      ((((uniqueInOrder (t.map (fun r => r.month))).insertionSort (· ≤ ·)).map
        (fun m => (m, ((t.filter (fun r => r.month == m)).map (fun r => r.totalPrice)).sum))))
    exact List.pairwise_map.mpr hlt

/-- Claim C5 (amended): with exact arithmetic on the `TotalPrice` column
the per-period totals sum to the total revenue of the same subset (hence
in particular of the full unfiltered table), because the months partition
the records; the program's binary64 summations of the same column can
disagree with each other in the last bits, so the exact law holds of the
ideal values, not bit-for-bit of the program (see the counterexample). -/
theorem c5_aggregate_consistency (t : List Record) :
    ((monthly_sales t).map Prod.snd).sum = (calculate_kpis t).totalRevenue := by
  show ((monthly_sales t).map Prod.snd).sum = (t.map (fun r => r.totalPrice)).sum
  have hmap : (monthly_sales t).map Prod.snd =
      ((uniqueInOrder (t.map (fun r => r.month))).insertionSort (· ≤ ·)).map
        (fun m => ((t.filter (fun r => r.month == m)).map (fun r => r.totalPrice)).sum) := by
    simp [monthly_sales, List.map_map, Function.comp]
  rw [hmap]
  exact sum_fibers (fun r => r.month) (fun r => r.totalPrice) _ t (monthKeys_nodup t)
    (fun r hr => mem_monthKeys.mpr ⟨r, hr, rfl⟩)

/-- Claim C5 is false of the program's binary64 arithmetic: on three rows
at the stored price of one tenth split over two months, the per-period
totals are the exact double and single of that value, but the
whole-column sum rounds the three-term total once more, so the sum of the
period totals differs from the total revenue by one unit in the last
place; every `TotalPrice` cell of the table is exactly what the binary64
column assignment produces from its row's quantity and price. -/
theorem c5_float_counterexample :
    ((periodTotals64 exFloat).map Prod.snd).sum ≠ totalRevenue64 exFloat ∧
    exFloat.map (fun r => r.totalPrice)
      = exFloat.map (fun r => totalPrice64 r.quantity r.unitPrice) := by
  constructor
  · have h1 : periodTotals64 exFloat =
        [("2010-12", mkRat 3602879701896397 18014398509481984),
          ("2011-01", mkRat 3602879701896397 36028797018963968)] := by
      with_unfolding_all exact rfl
    have h2 : totalRevenue64 exFloat = mkRat 5404319552844596 18014398509481984 := by
      decide
    rw [h1, h2]
    simp only [List.map_cons, List.map_nil, List.sum_cons, List.sum_nil, Rat.mkRat_eq_div]
    norm_num
  · decide

/-! ## Claim C3 -/

theorem top_products_eq (t : List Record) :
    top_products t =
      ((List.insertionSort countLE
        ((uniqueInOrder (descs t)).map (fun k => (k, (descs t).count k)))).reverse).take 10 :=
  rfl

theorem orderedInsert_pairwise_stable (U : List String) (x : String × ℕ) :
    ∀ m : List (String × ℕ),
      List.Pairwise (fun a b => a.2 < b.2 ∨ (a.2 = b.2 ∧ List.Sublist [a.1, b.1] U)) m →
      (∀ y ∈ m, x.2 = y.2 → List.Sublist [x.1, y.1] U) →
      List.Pairwise (fun a b => a.2 < b.2 ∨ (a.2 = b.2 ∧ List.Sublist [a.1, b.1] U))
        (List.orderedInsert countLE x m) := by
  intro m
  induction m with
  | nil =>
    intro _ _
    simp [List.orderedInsert]
  | cons y m ih =>
    intro hp hx
    obtain ⟨hy, hptail⟩ := List.pairwise_cons.mp hp
    by_cases hle : countLE x y
    · rw [List.orderedInsert, if_pos hle]
      have hxy : x.2 < y.2 ∨ (x.2 = y.2 ∧ List.Sublist [x.1, y.1] U) := by
        rcases lt_or_eq_of_le hle with hlt | hEq
        · exact Or.inl hlt
        · exact Or.inr ⟨hEq, hx y (List.mem_cons_self y m) hEq⟩
      refine List.pairwise_cons.mpr ⟨?_, hp⟩
      intro z hz
      rcases List.mem_cons.mp hz with hzy | hzm
      · rw [hzy]
        exact hxy
      · rcases hxy with hlt | ⟨hEq, _⟩
        · rcases hy z hzm with hlt2 | ⟨hEq2, _⟩
          · exact Or.inl (hlt.trans hlt2)
          · exact Or.inl (hEq2 ▸ hlt)
        · rcases hy z hzm with hlt2 | ⟨hEq2, _⟩
          · exact Or.inl (hEq ▸ hlt2)
          · refine Or.inr ⟨hEq.trans hEq2, ?_⟩
            exact hx z (List.mem_cons_of_mem y hzm) (hEq.trans hEq2)
    · rw [List.orderedInsert, if_neg hle]
      refine List.pairwise_cons.mpr ⟨?_, ?_⟩
      · intro z hz
        rcases (List.mem_orderedInsert countLE).mp hz with hzx | hzm
        · have : y.2 < x.2 := Nat.lt_of_not_le hle
          rw [hzx]
          exact Or.inl this
        · exact hy z hzm
      · exact ih hptail (fun z hz hEq => hx z (List.mem_cons_of_mem y hz) hEq)

theorem insertionSort_pairwise_stable (U : List String) :
    ∀ l : List (String × ℕ),
      List.Pairwise (fun a b => List.Sublist [a.1, b.1] U) l →
      List.Pairwise (fun a b => a.2 < b.2 ∨ (a.2 = b.2 ∧ List.Sublist [a.1, b.1] U))
        (List.insertionSort countLE l) := by
  intro l
  induction l with
  | nil =>
    intro _
    simp [List.insertionSort]
  | cons x xs ih =>
    intro hp
    obtain ⟨hx, hptail⟩ := List.pairwise_cons.mp hp
    rw [List.insertionSort]
    apply orderedInsert_pairwise_stable
    · exact ih hptail
    · intro y hy _
      exact hx y ((List.perm_insertionSort countLE xs).subset hy)

/-- Claim C3 (amended): `topItems` has at most 10 entries, each entry
counts the occurrences of its description in the subset, and entries are
ordered by strictly descending count with ties in reverse first-encounter
order (pandas obtains the descending order by reversing a stable
ascending sort of the grouped keys). -/
theorem c3_topItems_amended (t : List Record) :
    (top_products t).length ≤ 10 ∧
    (∀ p ∈ top_products t, p.1 ∈ descs t ∧ p.2 = (descs t).count p.1) ∧
    List.Pairwise (fun a b : String × ℕ =>
      b.2 < a.2 ∨ (b.2 = a.2 ∧ List.Sublist [b.1, a.1] (uniqueInOrder (descs t))))
      (top_products t) := by
  have hU : List.Pairwise (fun a b : String => List.Sublist [a, b] (uniqueInOrder (descs t)))
      (uniqueInOrder (descs t)) :=
    List.pairwise_iff_forall_sublist.mpr (fun h => h)
  have hcounted : List.Pairwise
      (fun a b : String × ℕ => List.Sublist [a.1, b.1] (uniqueInOrder (descs t)))
      ((uniqueInOrder (descs t)).map (fun k => (k, (descs t).count k))) :=
    List.pairwise_map.mpr hU
  have hsorted := insertionSort_pairwise_stable (uniqueInOrder (descs t)) _ hcounted
  have hrev : List.Pairwise (fun a b : String × ℕ =>
      b.2 < a.2 ∨ (b.2 = a.2 ∧ List.Sublist [b.1, a.1] (uniqueInOrder (descs t))))
      ((List.insertionSort countLE
        ((uniqueInOrder (descs t)).map (fun k => (k, (descs t).count k)))).reverse) :=
    List.pairwise_reverse.mpr hsorted
  refine ⟨?_, ?_, ?_⟩
  · rw [top_products_eq]
    exact List.length_take_le 10 _
  · intro p hp
    rw [top_products_eq] at hp
    have hp2 := List.mem_reverse.mp (List.take_subset 10 _ hp)
    have hp3 := (List.perm_insertionSort countLE _).subset hp2
    obtain ⟨k, hk, hEq⟩ := List.mem_map.mp hp3
    refine ⟨?_, ?_⟩
    · rw [← hEq]
      exact mem_uniqueInOrder.mp hk
    · rw [← hEq]
  · rw [top_products_eq]
    exact List.Pairwise.sublist (List.take_sublist 10 _) hrev

/-- Claim C3 is false as stated: on a subset whose two descriptions are
tied at one occurrence each, the code lists the later-encountered
description first, while the claimed first-encounter tie order would list
the earlier one first. -/
theorem c3_tie_order_counterexample :
    top_products exTie = [("banana", 1), ("apple", 1)] ∧
    top_products_spec exTie = [("apple", 1), ("banana", 1)] := by
  decide

/-! ## Claim C6 -/

theorem parseColumn_some_fst :
    ∀ {t : List RawRecord} {ps}, parseColumn t = some ps → ps.map Prod.fst = t := by
  intro t
  induction t with
  | nil =>
    intro ps h
    simp only [parseColumn, Option.some.injEq] at h
    rw [← h]
    rfl
  | cons r rs ih =>
    intro ps h
    cases h1 : parseDate r.invoiceDate with
    | none => simp [parseColumn, h1] at h
    | some d =>
      cases h2 : parseColumn rs with
      | none => simp [parseColumn, h1, h2] at h
      | some rest =>
        simp only [parseColumn, h1, h2, Option.some.injEq] at h
        rw [← h]
        simp [ih h2]

theorem parseColumn_some_snd :
    ∀ {t : List RawRecord} {ps}, parseColumn t = some ps →
      ∀ p ∈ ps, parseDate p.1.invoiceDate = some p.2 := by
  intro t
  induction t with
  | nil =>
    intro ps h p hp
    simp only [parseColumn, Option.some.injEq] at h
    rw [← h] at hp
    simp at hp
  | cons r rs ih =>
    intro ps h p hp
    cases h1 : parseDate r.invoiceDate with
    | none => simp [parseColumn, h1] at h
    | some d =>
      cases h2 : parseColumn rs with
      | none => simp [parseColumn, h1, h2] at h
      | some rest =>
        simp only [parseColumn, h1, h2, Option.some.injEq] at h
        rw [← h] at hp
        rcases List.mem_cons.mp hp with hEq | hmem
        · rw [hEq]
          exact h1
        · exact ih h2 p hmem

/-- Claim C6 (amended): the deriver keeps the number and order of the
records and the values of the four non-timestamp original fields, parses
`InvoiceDate` in place, and attaches `TotalPrice = quantity * unit price`
and the month key; but it performs these column assignments on its
argument, so the input table observed after the call is the derived
table, not the original. -/
theorem c6_deriver_amended (t : List RawRecord) (rds : List Record)
    (h : prepare_features t = .ok rds) :
    rds.map (fun r => (r.invoiceNo, r.description, r.quantity, r.unitPrice))
        = t.map (fun r => (r.invoiceNo, r.description, r.quantity, r.unitPrice)) ∧
    rds.map (fun r => some r.invoiceDate) = t.map (fun r => parseDate r.invoiceDate) ∧
    ∀ r ∈ rds, r.totalPrice = (r.quantity : ℚ) * r.unitPrice ∧
      r.month = monthKey r.invoiceDate := by
  cases hc : parseColumn t with
  | none =>
    simp [prepare_features, hc] at h
  | some ps =>
    simp only [prepare_features, hc, Except.ok.injEq] at h
    have hfst := parseColumn_some_fst hc
    refine ⟨?_, ?_, ?_⟩
    · rw [← h, List.map_map, ← hfst, List.map_map]
      rfl
    · rw [← h, List.map_map, ← hfst, List.map_map]
      apply List.map_congr_left
      intro p hp
      show some p.2 = parseDate p.1.invoiceDate
      rw [parseColumn_some_snd hc p hp]
    · intro r hr
      rw [← h] at hr
      obtain ⟨p, _, hEq⟩ := List.mem_map.mp hr
      rw [← hEq]
      exact ⟨rfl, rfl⟩

/-- Claim C6 is false as stated: after the call, the caller's table (the
same object the deriver returned) differs from the original input in the
`InvoiceDate` column, which now holds the parsed date instead of the raw
string — the input table is mutated, not left unchanged. -/
theorem c6_inplace_mutation_counterexample :
    prepare_features_argAfterCall exRaw = .ok exRawDerived ∧
    exRawDerived.map Record.originalCells ≠ exRaw.map RawRecord.originalCells := by
  constructor
  · with_unfolding_all exact rfl
  · decide

/-- Witness for the amended C6 theorem at the one-row table `exRaw`. -/
theorem c6_deriver_amended_witness :
    exRawDerived.map (fun r => (r.invoiceNo, r.description, r.quantity, r.unitPrice))
        = exRaw.map (fun r => (r.invoiceNo, r.description, r.quantity, r.unitPrice)) ∧
    exRawDerived.map (fun r => some r.invoiceDate)
        = exRaw.map (fun r => parseDate r.invoiceDate) ∧
    ∀ r ∈ exRawDerived, r.totalPrice = (r.quantity : ℚ) * r.unitPrice ∧
      r.month = monthKey r.invoiceDate :=
  c6_deriver_amended exRaw exRawDerived (by with_unfolding_all exact rfl)

/-! ## Claim C10 -/

/-- Claim C10: no metric or aggregate excludes returns — the total
revenue is the plain sum of quantity times unit price over all records of
the subset, and on a subset holding a return the total revenue, the
average and a period total all come out negative. -/
theorem c10_returns_included :
    (∀ t : List Record, (∀ r ∈ t, r.totalPrice = (r.quantity : ℚ) * r.unitPrice) →
      (calculate_kpis t).totalRevenue
        = (t.map (fun r => (r.quantity : ℚ) * r.unitPrice)).sum) ∧
    ((calculate_kpis [exNegRecord]).totalRevenue < 0 ∧
      (∃ v, (calculate_kpis [exNegRecord]).averageValue = some v ∧ v < 0) ∧
      ∃ p ∈ monthly_sales [exNegRecord], p.2 < 0) := by
  constructor
  · intro t h
    show (t.map (fun r => r.totalPrice)).sum = _
    rw [List.map_congr_left h]
  · refine ⟨?_, ⟨-6, ?_, by norm_num⟩, ?_⟩
    · with_unfolding_all exact of_decide_eq_true rfl
    · with_unfolding_all exact of_decide_eq_true rfl
    · have hms : monthly_sales [exNegRecord] = [("2010-12", -6)] := by
        with_unfolding_all exact rfl
      refine ⟨("2010-12", -6), ?_, by norm_num⟩
      rw [hms]
      exact List.mem_singleton_self _

/-- Witness for the universally quantified half of the C10 theorem at the
one-row table holding a return. -/
theorem c10_returns_included_witness :
    (calculate_kpis [exNegRecord]).totalRevenue
      = ([exNegRecord].map (fun r => (r.quantity : ℚ) * r.unitPrice)).sum :=
  c10_returns_included.1 [exNegRecord] (by
    intro r hr
    rw [List.mem_singleton] at hr
    rw [hr]
    with_unfolding_all exact of_decide_eq_true rfl)

/-! ## Claim C7 -/

theorem mkRat_num_mul (q : ℤ) (x : ℚ) : mkRat (q * x.num) x.den = (q : ℚ) * x := by
  rw [Rat.mkRat_eq_div, Int.cast_mul, mul_div_assoc, Rat.num_div_den]

/-- Claim C7 (amended): the line total is the binary64 rounding of
quantity times the stored binary64 price; it equals that exact product
precisely when the product is itself representable, and otherwise a
second rounding occurs, so the computation is not exact decimal
arithmetic. -/
theorem c7_lineTotal_amended (q : ℤ) (p : ℚ)
    (h : fl ((q : ℚ) * fl p) = (q : ℚ) * fl p) :
    totalPrice64 q p = (q : ℚ) * fl p := by
  show fl (mkRat (q * (fl p).num) (fl p).den) = _
  rw [mkRat_num_mul, h]

/-- Witness for the amended C7 theorem: three units at a stored price of
one half multiply exactly. -/
theorem c7_lineTotal_amended_witness :
    totalPrice64 3 (mkRat 1 2) = (3 : ℚ) * fl (mkRat 1 2) :=
  c7_lineTotal_amended 3 (mkRat 1 2) (by with_unfolding_all exact of_decide_eq_true rfl)

/-- Claim C7 is false as stated: at quantity 7 and a stored unit price of
one tenth (a value in the input domain), the computed line total differs
from the exact product of the quantity with the stored price — the
binary64 multiplication loses precision beyond the stored price. -/
theorem c7_rounding_counterexample :
    totalPrice64 7 (mkRat 1 10) ≠ 7 * fl (mkRat 1 10) := by
  have h1 : totalPrice64 7 (mkRat 1 10) = mkRat 6305039478318695 9007199254740992 := by
    decide
  have h2 : fl (mkRat 1 10) = mkRat 3602879701896397 36028797018963968 := by
    decide
  rw [h1, h2, Rat.mkRat_eq_div, Rat.mkRat_eq_div]
  norm_num

end DataAnalysis
